import Mathlib

/-!
Verification development for the `backup` program (Go).

The program selects files from a directory tree according to an ordered
sequence of include/exclude glob stages (`compileStages` in backup.go),
captures per-file metadata into tar headers (`buildTarHeader`), and emits
a gzip-compressed tar archive (`runBuild`, `archiveFile`), with an unused
AES stream layer (`setupCryptoStream`, `managedWriter`).

This file gives a shallow embedding of those functions and proves the
claimed properties about them.  Strings are modelled as Lean `String`
(lists of unicode code points); OS interactions (stat, readdir, id
lookup, randomness, stream writes) are modelled as explicit oracles in
environment records, mirroring exactly the branches the Go code takes on
each oracle outcome.
-/

namespace Backup

/-! ### Glob matching: embedding of Go `path/filepath.Match`

`compileStages` calls `filepath.Match(pattern, wpath)` and discards the
error (a malformed pattern therefore behaves as a non-match).  The
functions below are a direct translation of `Match`, `scanChunk`,
`matchChunk` and `getEsc` from Go's path/filepath/match.go (unix build:
the backslash branches are active).  Go iterates byte-wise when skipping
characters under a `*`; we model at the code-point level, which agrees
with Go on all ASCII inputs.

The loops of `Match`/`matchChunk` consume their pattern/chunk argument
by at least one character per iteration, so we realise them with a fuel
parameter initialised to `length + 1`, which is always sufficient; the
fuel-exhaustion branches are unreachable. -/

/-- Result of Go's `matchChunk`: a bad pattern, a failed match, or a
match with the remaining name. -/
inductive ChunkRes where
  | err : ChunkRes
  | fail : ChunkRes
  | ok (rest : List Char) : ChunkRes
deriving DecidableEq, Repr

/-- Go `getEsc`: read one (possibly escaped) character of a bracket
class.  `none` models `ErrBadPattern`. -/
def getEsc : List Char → Option (Char × List Char)
  | [] => none
  | c :: cs =>
    if c = '-' ∨ c = ']' then none
    else if c = '\\' then
      match cs with
      | [] => none
      | d :: ds => if ds = [] then none else some (d, ds)
    else if cs = [] then none else some (c, cs)

/-- The range-parsing loop inside Go `matchChunk`'s `[` case: parse
ranges until an unconsumed `]` with at least one range read.  Returns
the accumulated match flag and the chunk after the `]`; `none` models
`ErrBadPattern`.  Each iteration consumes at least one character of
`chunk`, so fuel `chunk.length + 1` suffices. -/
def parseRanges (fuel : Nat) (r : Char) (mtch : Bool) (nrange : Nat) (chunk : List Char) :
    Option (Bool × List Char) :=
  match fuel with
  | 0 => none
  | fuel + 1 =>
    match chunk with
    | ']' :: t =>
      if nrange > 0 then some (mtch, t)
      else none
    | _ =>
      match getEsc chunk with
      | none => none
      | some (lo, chunk1) =>
        match chunk1 with
        | '-' :: t =>
          match getEsc t with
          | none => none
          | some (hi, chunk2) =>
            parseRanges fuel r (mtch || (lo ≤ r ∧ r ≤ hi)) (nrange + 1) chunk2
        | _ =>
          parseRanges fuel r (mtch || (lo ≤ r ∧ r ≤ lo)) (nrange + 1) chunk1

/-- Go `matchChunk`: match the non-star chunk against the head of `s`.
After the match has failed the loop keeps consuming the chunk to detect
bad patterns, tracked by the `failed` flag exactly as in the source.
Each iteration consumes at least one character of `chunk`. -/
def matchChunkGo (fuel : Nat) (failed : Bool) (chunk s : List Char) : ChunkRes :=
  match fuel with
  | 0 => .err
  | fuel + 1 =>
    match chunk with
    | [] => if failed then .fail else .ok s
    | c :: cRest =>
      let failed := failed || s.isEmpty
      if c = '[' then
        -- character class; when already failed, `r` stays the zero rune
        let r : Char := if failed then ⟨0, by decide⟩ else s.headD ⟨0, by decide⟩
        let s1 := if failed then s else s.tail
        let negated := cRest.headD ' ' = '^'
        let chunk1 := if negated then cRest.tail else cRest
        match parseRanges (chunk1.length + 1) r false 0 chunk1 with
        | none => .err
        | some (mtch, chunk2) =>
          matchChunkGo fuel (failed || (mtch = negated)) chunk2 s1
      else if c = '?' then
        if failed then matchChunkGo fuel true cRest s
        else matchChunkGo fuel (s.headD ' ' = '/') cRest s.tail
      else if c = '\\' then
        -- escape: the next chunk character is compared literally
        match cRest with
        | [] => .err
        | d :: ds =>
          if failed then matchChunkGo fuel true ds s
          else matchChunkGo fuel (d ≠ s.headD ' ') ds s.tail
      else
        if failed then matchChunkGo fuel true cRest s
        else matchChunkGo fuel (c ≠ s.headD ' ') cRest s.tail

/-- Wrapper choosing sufficient fuel for `matchChunkGo`. -/
def matchChunk (chunk s : List Char) : ChunkRes :=
  matchChunkGo (chunk.length + 1) false chunk s

/-- The star-consuming head of Go `scanChunk`. -/
def stripStars : List Char → Bool × List Char
  | '*' :: cs => (true, (stripStars cs).2)
  | cs => (false, cs)

/-- The scanning loop of Go `scanChunk`: split off the chunk up to the
next top-level `*`, skipping escaped characters and bracket contents. -/
def scanBody (inrange : Bool) : List Char → List Char × List Char
  | [] => ([], [])
  | c :: cs =>
    if c = '\\' then
      match cs with
      | d :: ds =>
        let p := scanBody inrange ds
        (c :: d :: p.1, p.2)
      | [] => ([c], [])
    else if c = '[' then
      let p := scanBody true cs
      (c :: p.1, p.2)
    else if c = ']' then
      let p := scanBody false cs
      (c :: p.1, p.2)
    else if c = '*' ∧ ¬inrange then
      ([], c :: cs)
    else
      let p := scanBody inrange cs
      (c :: p.1, p.2)

/-- Go `scanChunk`: `(star, chunk, rest)`. -/
def scanChunk (pattern : List Char) : Bool × List Char × List Char :=
  let sp := stripStars pattern
  let cb := scanBody false sp.2
  (sp.1, cb.1, cb.2)

/-- Result of a round of the star-skipping inner loop of Go `Match`. -/
inductive StarRes where
  | found (t : List Char) : StarRes
  | nomatch : StarRes
  | err : StarRes

/-- The inner loop of Go `Match` under a `*`: try matching the chunk
when skipping one more leading character of the name, never skipping
past a `/`. -/
def starSearch (chunk rest : List Char) : List Char → StarRes
  | [] => .nomatch
  | c :: cs =>
    if c = '/' then .nomatch
    else
      match matchChunk chunk cs with
      | .ok t =>
        if rest = [] ∧ t ≠ [] then starSearch chunk rest cs
        else .found t
      | .err => .err
      | .fail => starSearch chunk rest cs

/-- The syntactic-validity check Go `Match` performs on the remaining
pattern before returning a no-match.  Each iteration strictly shrinks
the pattern, so fuel `pattern.length + 1` suffices. -/
def checkValidity (fuel : Nat) : List Char → Option Bool
  | [] => some false
  | p =>
    match fuel with
    | 0 => none
    | fuel + 1 =>
      let sc := scanChunk p
      match matchChunk sc.2.1 [] with
      | .err => none
      | _ => checkValidity fuel sc.2.2

/-- The main loop of Go `Match`.  `none` models a returned
`ErrBadPattern` (with `matched = false`); `some b` a clean result.
Each iteration strictly shrinks the pattern, so fuel
`pattern.length + 1` suffices. -/
def matchLoop (fuel : Nat) (pattern name : List Char) : Option Bool :=
  match fuel with
  | 0 => none
  | fuel + 1 =>
    match pattern with
    | [] => some (name = [])
    | _ :: _ =>
      let sc := scanChunk pattern
      let star := sc.1
      let chunk := sc.2.1
      let rest := sc.2.2
      if star ∧ chunk = [] then
        -- trailing * matches the rest of the name unless it has a /
        some (!(name.contains '/'))
      else
        match matchChunk chunk name with
        | .ok t =>
          if t = [] ∨ rest ≠ [] then matchLoop fuel rest t
          else if star then
            match starSearch chunk rest name with
            | .found t2 => matchLoop fuel rest t2
            | .err => none
            | .nomatch => checkValidity (rest.length + 1) rest
          else checkValidity (rest.length + 1) rest
        | .err => none
        | .fail =>
          if star then
            match starSearch chunk rest name with
            | .found t2 => matchLoop fuel rest t2
            | .err => none
            | .nomatch => checkValidity (rest.length + 1) rest
          else checkValidity (rest.length + 1) rest

/-- Go `filepath.Match` with the error folded into `false`, exactly how
`compileStages` consumes it (`full, _ = filepath.Match(...)`): on
`ErrBadPattern` Go returns `matched = false` and the caller ignores the
error. -/
def goMatch (pattern name : String) : Bool :=
  (matchLoop (pattern.toList.length + 1) pattern.toList name.toList).getD false

/-! ### Filesystem model and the pruning walk

The program chdirs into the home directory (`goHome`) and then expands
relative glob patterns and walks relative paths.  We model the home
directory's content as a forest of named entries.  A forest is one
inductive type (`FTree`): a sibling chain of leaf entries and directory
entries, in the order `filepath.Glob`/`filepath.Walk` enumerate them
(both sort directory entries, so the stored order is the sorted readdir
order).  Entry names are path segments (nonempty, no `/`), which the
well-formedness predicate `wfForest` makes explicit where needed. -/

/-- The `os.FileInfo` type classification observed through
`info.Mode()` by `skipFileType` and `info.IsDir()`.  Directories are
the `FTree.dir` constructor; leaves carry one of these.  `other`
covers the device/fifo/socket/irregular modes.  (`os.ModeTemporary`
is a Plan 9-only bit that `unix.Lstat` never produces on the targeted
OS, so it has no representation here.) -/
inductive FType where
  | reg : FType
  | slink : FType
  | other : FType
deriving DecidableEq, Repr

/-- A forest of directory entries: `nil`, a non-directory leaf followed
by its siblings, or a directory with children followed by its
siblings. -/
inductive FTree where
  | nil : FTree
  | file (name : String) (ft : FType) (rest : FTree) : FTree
  | dir (name : String) (children : FTree) (rest : FTree) : FTree
deriving DecidableEq, Repr

/-- One resolved directory entry, as `filepath.Walk`'s callback sees
it. -/
inductive Entry where
  | efile (ft : FType) : Entry
  | edir (children : FTree) : Entry
deriving DecidableEq, Repr

/-- Names of the entries of a forest, in enumeration order. -/
def namesOf : FTree → List String
  | .nil => []
  | .file nm _ rest => nm :: namesOf rest
  | .dir nm _ rest => nm :: namesOf rest

/-- Look a root-level entry up by name (models `os.Lstat`/readdir on a
path produced by glob expansion). -/
def findEntry : FTree → String → Option Entry
  | .nil, _ => none
  | .file nm ft rest, q => if nm = q then some (.efile ft) else findEntry rest q
  | .dir nm ch rest, q => if nm = q then some (.edir ch) else findEntry rest q

/-- Model of `filepath.Join(dir, name)` for the walk's path accumulation (the
top-level call passes the glob-produced path itself, modelled by an
empty accumulated path). -/
def joinPath (pre nm : String) : String :=
  if pre = "" then nm else pre ++ "/" ++ nm

/-- Go `path.Base`, as applied to walk paths. -/
def goPathBase (s : String) : String :=
  let l := s.toList
  if l = [] then "."
  else
    let t := (l.reverse.dropWhile (· = '/')).reverse
    if t = [] then "/"
    else ⟨(t.reverse.takeWhile (· ≠ '/')).reverse⟩

/-- Go `skipFileType` (backup.go): regular files, directories and
symlinks are kept, every other type is skipped.  Directories take the
`IsDir` branch of the walk callback before this matters, so only leaf
types appear here. -/
def skipFileType : FType → Bool
  | .reg => false
  | .slink => false
  | .other => true

/-- The `excluded` computation of the walk callback in `compileStages`:
some pattern of the exclusion window matches the full walk path or its
base name (either alone suffices; match errors are discarded). -/
def isExcluded (exclusions : List String) (wpath : String) : Bool :=
  exclusions.any fun excl => goMatch excl wpath || goMatch excl (goPathBase wpath)

/-- The walk over the children of a visited directory: the callback of
`compileStages` applied to each entry in order, recursing into
non-excluded directories, pruning excluded ones (`filepath.SkipDir`),
and collecting the non-excluded, non-skipped leaf paths. -/
def walkForest (exclusions : List String) (pre : String) : FTree → List String
  | .nil => []
  | .file nm ft rest =>
    (if skipFileType ft then []
     else if !isExcluded exclusions (joinPath pre nm) then [joinPath pre nm] else []) ++
      walkForest exclusions pre rest
  | .dir nm children rest =>
    (if isExcluded exclusions (joinPath pre nm) then []
     else walkForest exclusions (joinPath pre nm) children) ++
      walkForest exclusions pre rest

/-- The walk callback applied to a single resolved entry at path `w`
(the root of one `filepath.Walk` invocation). -/
def walkOne (exclusions : List String) (w : String) : Entry → List String
  | .efile ft =>
    if skipFileType ft then []
    else if !isExcluded exclusions w then [w] else []
  | .edir children =>
    if isExcluded exclusions w then [] else walkForest exclusions w children

/-- One `filepath.Walk(file, ...)` invocation of `compileStages` on a
glob-produced root path. -/
def walkRoot (exclusions : List String) (fs : FTree) (root : String) : List String :=
  match findEntry fs root with
  | none => []
  | some e => walkOne exclusions root e

/-- Go `hasMeta` of path/filepath/glob.go (unix: `*?[\`). -/
def hasMeta (pattern : String) : Bool :=
  pattern.toList.any fun c => c = '*' || c = '?' || c = '[' || c = '\\'

/-- Model of `filepath.Glob` for the patterns this program produces: relative,
separator-free patterns expanded against the current (home) directory.
Without meta characters Glob stats the literal path and returns it when
it exists; with meta characters it matches the sorted directory entries
against the pattern.  Errors yield zero matches, as in the source. -/
def globExpand (fs : FTree) (pattern : String) : List String :=
  if hasMeta pattern then
    (namesOf fs).filter fun nm => goMatch pattern nm
  else
    match findEntry fs pattern with
    | some _ => [pattern]
    | none => []

/-! ### Stages and the compiler -/

/-- Go `buildRule`. -/
structure BuildRule where
  glob : String
  line : Nat
deriving DecidableEq, Repr

/-- Go `buildStage` (`include: if false, exclude`). -/
structure BuildStage where
  isInclude : Bool
  source : String
  rules : List BuildRule
deriving DecidableEq, Repr

/-- The initial exclusion window of `compileStages`: the glob patterns
of every exclude stage, concatenated in stage order. -/
def initialExclusions (stages : List BuildStage) : List String :=
  stages.flatMap fun s => if s.isInclude then [] else s.rules.map (·.glob)

/-- One iteration of the second loop of `compileStages`, carrying
`(exclusions, list)`: an include stage globs each rule and walks each
match against the current window; an exclude stage drops its own rule
count from the front of the window. -/
def compileStep (fs : FTree) (acc : List String × List String) (s : BuildStage) :
    List String × List String :=
  if s.isInclude then
    (acc.1,
     acc.2 ++ s.rules.flatMap fun r =>
       (globExpand fs r.glob).flatMap fun file => walkRoot acc.1 fs file)
  else
    (acc.1.drop s.rules.length, acc.2)

/-- Go `compileStages`: empty stage list returns the nil list at once;
otherwise fold the stages over the initial window.  The Go function's
error result is constantly nil and is omitted. -/
def compileStages (fs : FTree) (stages : List BuildStage) : List String :=
  if stages.isEmpty then []
  else (stages.foldl (compileStep fs) (initialExclusions stages, [])).2

/-- The exclusion window in force when `compileStages` reaches stage
index `i` (the fold state after the first `i` stages). -/
def windowAt (fs : FTree) (stages : List BuildStage) (i : Nat) : List String :=
  ((stages.take i).foldl (compileStep fs) (initialExclusions stages, [])).1

/-! ### The rule-file loader -/

/-- Model of `strings.TrimSpace` as applied to rule-file lines (ASCII
whitespace; the unicode-only space code points do not occur in this
development's inputs). -/
def trimSpace (s : String) : String :=
  ⟨((s.toList.dropWhile Char.isWhitespace).reverse.dropWhile Char.isWhitespace).reverse⟩

/-- Append a rule to the stage currently under construction, i.e. the
last stage of the list (`stage` points at `stages[len(stages)-1]` in
the source). -/
def addRule : List BuildStage → BuildRule → List BuildStage
  | [], _ => []
  | [s], r => [{ s with rules := s.rules ++ [r] }]
  | s :: rest, r => s :: addRule rest r

/-- The scanner loop of Go `loadStages`: line counter starting at 1,
markers open a fresh stage, blank lines are skipped, and other lines
become rules of the open stage (lines before the first marker are
dropped). -/
def loadLines (src : String) (started : Bool) (i : Nat) (stages : List BuildStage) :
    List String → List BuildStage
  | [] => stages
  | line :: rest =>
    let t := trimSpace line
    if t = "[include]" then
      loadLines src true (i + 1) (stages ++ [⟨true, src, []⟩]) rest
    else if t = "[exclude]" then
      loadLines src true (i + 1) (stages ++ [⟨false, src, []⟩]) rest
    else if t = "" then
      loadLines src started (i + 1) stages rest
    else if started then
      loadLines src started (i + 1) (addRule stages ⟨t, i⟩) rest
    else
      loadLines src started (i + 1) stages rest

/-- Go `loadStages`: append the stages scanned from one rule file
(given as its list of lines) to an already-loaded stage list. -/
def loadStages (src : String) (lines : List String) (stages : List BuildStage) :
    List BuildStage :=
  loadLines src false 1 stages lines

/-! ### Metadata capture: embedding of `buildTarHeader`

`buildTarHeader` (in the cgo source file) runs `unix.Lstat`, resolves
uid/gid to names through `getpwuid_r`/`getgrgid_r` (NULL result on a
failed lookup, turned into `""` by `C.GoString`), reads the symlink
target with `os.Readlink` (error discarded, leaving `""`), classifies
the raw `st_mode` through `S_IFMT`, and fills a `tar.Header`.  The OS
calls are modelled as oracles in `StatEnv`. -/

/-- The tar type-flag constants used by `buildTarHeader`
(`tar.TypeReg` …). -/
inductive TarTypeflag where
  | reg : TarTypeflag
  | dir : TarTypeflag
  | symlink : TarTypeflag
  | block : TarTypeflag
  | char : TarTypeflag
  | fifo : TarTypeflag
deriving DecidableEq, Repr

/-- The fields of `tar.Header` that `buildTarHeader` fills. -/
structure TarHeader where
  name : String
  mode : Int
  uid : Nat
  gid : Nat
  size : Int
  uname : String
  gname : String
  mtime : Int
  typeflag : TarTypeflag
  linkname : String
  atime : Int
  ctime : Int
deriving DecidableEq, Repr

/-- The fields of `unix.Stat_t` read by `buildTarHeader`.  `mode` is
the raw `st_mode` (type bits and permission bits together). -/
structure UnixStat where
  mode : Nat
  uid : Nat
  gid : Nat
  size : Int
  mtim : Int
  atim : Int
  ctim : Int
deriving DecidableEq, Repr

/-- Outcomes of the OS calls `buildTarHeader` makes on one path:
`lstat = none` models a failed `unix.Lstat`; `username`/`groupname`
model the `getpwuid_r`/`getgrgid_r` results (`none` = NULL, lookup
failed); `readlink = none` models a failed `os.Readlink` (whose error
the source discards, leaving the empty string). -/
structure StatEnv where
  path : String
  lstat : Option UnixStat
  username : Option String
  groupname : Option String
  readlink : Option String
deriving DecidableEq, Repr

/-- Model of `C.GoString` applied to a possibly-NULL C string. -/
def goCString : Option String → String
  | none => ""
  | some s => s

/-- File-type mask and type constants (octal, as in `<sys/stat.h>`). -/
def S_IFMT : Nat := 0o170000

def S_IFDIR : Nat := 0o040000

def S_IFLNK : Nat := 0o120000

def S_IFBLK : Nat := 0o060000

def S_IFCHR : Nat := 0o020000

def S_IFIFO : Nat := 0o010000

/-- The `switch info.Mode & unix.S_IFMT` of `buildTarHeader`; the
default case is `tar.TypeReg`. -/
def tarTypeOf (mode : Nat) : TarTypeflag :=
  let m := mode &&& S_IFMT
  if m = S_IFDIR then .dir
  else if m = S_IFLNK then .symlink
  else if m = S_IFBLK then .block
  else if m = S_IFCHR then .char
  else if m = S_IFIFO then .fifo
  else .reg

/-- Embedding of `buildTarHeader`: `none` exactly when `unix.Lstat` failed;
otherwise every header field filled as in the source, with
`Mode := int64(info.Mode)` taking the raw stat mode. -/
def buildTarHeader (env : StatEnv) : Option TarHeader :=
  match env.lstat with
  | none => none
  | some info =>
    some {
      name := env.path
      mode := (info.mode : Int)
      uid := info.uid
      gid := info.gid
      size := info.size
      uname := goCString env.username
      gname := goCString env.groupname
      mtime := info.mtim
      typeflag := tarTypeOf info.mode
      linkname := goCString env.readlink
      atime := info.atim
      ctime := info.ctim }

/-! ### Per-file archiving: embedding of `archiveFile`

`archiveFile(archiver, path)` opens the file, builds the header,
writes it, and copies the body.  `os.Open` failure, a nil header and a
`WriteHeader` failure all `return nil` (a reported skip, the caller's
loop continues); an `io.Copy` failure returns a wrapped error, which
`runBuild` propagates, aborting the run.  The I/O outcomes are oracles
in `FileEnv`. -/

/-- Outcomes of the I/O operations `archiveFile` performs on one
selected path: `openOk` for `os.Open`, `stat` feeding
`buildTarHeader`, `writeHeaderOk` for `archiver.WriteHeader`, `copyOk`
for the body `io.Copy`. -/
structure FileEnv where
  openOk : Bool
  stat : StatEnv
  writeHeaderOk : Bool
  copyOk : Bool
deriving DecidableEq, Repr

/-- Embedding of `archiveFile`: `none` models a nil error return (the run
continues); `some msg` models the wrapped `io.Copy` error (fatal to
the run). -/
def archiveFile (env : FileEnv) : Option String :=
  if !env.openOk then none
  else
    match buildTarHeader env.stat with
    | none => none
    | some header =>
      if !env.writeHeaderOk then none
      else if header.typeflag = .symlink then none
      else if env.copyOk then none
      else some ("Error archiving " ++ env.stat.path)

/-- The per-file loop of `runBuild`: the first non-nil `archiveFile`
error is returned, aborting the run; nil results continue to the next
file. -/
def archiveLoop : List FileEnv → Option String
  | [] => none
  | env :: rest =>
    match archiveFile env with
    | some msg => some msg
    | none => archiveLoop rest

/-! ### The confidentiality layer: `setupCryptoStream` and
`managedWriter`

`setupCryptoStream` reads a passphrase, pads or truncates it to 32
bytes, draws a random IV, writes the IV to the output, and returns a
`managedWriter` whose `Close` zeroes its password slice.  On the
`rand.Read` and IV-write failure paths it returns `(nil, err)` before
any `managedWriter` exists, so nothing ever zeroes the passphrase
there.  The passphrase bytes are modelled as `List Nat`. -/

/-- The padding/truncation of the passphrase to 32 bytes for
AES-256. -/
def pad32 (pw : List Nat) : List Nat :=
  if pw.length < 32 then pw ++ List.replicate (32 - pw.length) 0
  else pw.take 32

/-- Embedding of `managedWriter.Close`: the zeroing loop over the
password slice. -/
def managedWriterClose (pw : List Nat) : List Nat :=
  List.replicate pw.length 0

/-- Outcomes of the fallible operations of `setupCryptoStream`:
`password = none` models a `ReadPassword` failure, `randOk` the
`rand.Read` of the IV, `ivWriteOk` the `output.Write(iv[:])`. -/
structure CryptoEnv where
  password : Option (List Nat)
  randOk : Bool
  ivWriteOk : Bool
deriving DecidableEq, Repr

/-- The passphrase buffer contents after a complete confidentiality-
layer lifecycle: `setupCryptoStream` followed, when it returned a
writer, by that writer's deferred `Close`.  `none` when no passphrase
was ever read.  Mirrors the source paths: `ReadPassword` failure
returns before a passphrase exists; `rand.Read` or IV-write failure
returns `(nil, err)` with the padded passphrase left untouched; on
success the `managedWriter`'s `Close` zeroes its slice. -/
def cryptoPasswordAfterRun (env : CryptoEnv) : Option (List Nat) :=
  match env.password with
  | none => none
  | some pw =>
    let padded := pad32 pw
    if !env.randOk then some padded
    else if !env.ivWriteOk then some padded
    else some (managedWriterClose padded)

/-! ### The emission pipeline of `runBuild`

`runBuild` composes `compressor := gzip.NewWriter(output)` and
`archiver := tar.NewWriter(compressor)`; the AES layer
(`setupCryptoStream`, lines 197–204) is commented out.  We model
writer stacks symbolically and give them a byte-level semantics with
the gzip/cipher transformations abstract. -/

/-- A stack of writers over the destination sink. -/
inductive Sink where
  | dest : Sink
  | gzipWriter (inner : Sink) : Sink
  | tarWriter (inner : Sink) : Sink
  | cryptoWriter (inner : Sink) : Sink
deriving DecidableEq, Repr

/-- The writer stack `runBuild` hands to `tar.NewWriter`: the gzip
compressor directly over the destination; every crypto construction is
commented out in the source. -/
def archiverSink : Sink := .gzipWriter .dest

/-- Whether a writer stack contains the confidentiality layer. -/
def usesCrypto : Sink → Bool
  | .dest => false
  | .gzipWriter inner => usesCrypto inner
  | .tarWriter inner => usesCrypto inner
  | .cryptoWriter _ => true

/-- Byte-level semantics of a writer stack: the bytes arriving at the
destination sink when `s` is written through the stack.  `gz` is the
gzip encoding, `enc` the AES-OFB keystream application, `iv` the IV
that `setupCryptoStream` writes unencrypted ahead of the
ciphertext. -/
def bytesToDest (gz enc : List Nat → List Nat) (iv : List Nat) :
    Sink → List Nat → List Nat
  | .dest, s => s
  | .gzipWriter inner, s => bytesToDest gz enc iv inner (gz s)
  | .tarWriter inner, s => bytesToDest gz enc iv inner s
  | .cryptoWriter inner, s => bytesToDest gz enc iv inner (iv ++ enc s)

/-! ### Well-formed directory forests

Real directory trees have nonempty sibling-unique entry names free of
the path separator; `wfForest` makes this explicit for the uniqueness
results about single walk invocations. -/

/-- A valid entry name: nonempty and free of `/`. -/
def goodName (nm : String) : Bool :=
  !nm.data.isEmpty && !nm.data.contains '/'

/-- Well-formedness of a forest: all names valid and unique among
siblings, recursively. -/
def wfForest : FTree → Bool
  | .nil => true
  | .file nm _ rest => goodName nm && !(namesOf rest).contains nm && wfForest rest
  | .dir nm ch rest =>
    goodName nm && !(namesOf rest).contains nm && wfForest ch && wfForest rest

/-- Shape of the remainder of a walk path after an entry's own path: it
is either nothing or descends through a separator. -/
def TailOk (t : List Char) : Prop := t = [] ∨ ∃ u, t = '/' :: u

/-- Character test for "not the path separator", used to recover the
leading path segment. -/
def notSlash (c : Char) : Bool := !(c == '/')

/-- The walk paths of the non-directory entries of a forest: the only
paths the walk callback may ever append. -/
def filePaths (pre : String) : FTree → List String
  | .nil => []
  | .file nm _ rest => joinPath pre nm :: filePaths pre rest
  | .dir nm ch rest => filePaths (joinPath pre nm) ch ++ filePaths pre rest

/-- The selection of `compileStages` written as a structural recursion
over the stages with the running exclusion window made explicit: stage
order, then rule order, then glob match order, then walk pre-order.
Used to state the ordering half of the amended claim C3 and related as
a theorem to the fold inside `compileStages`. -/
def selWithWindow (fs : FTree) : List String → List BuildStage → List String
  | _, [] => []
  | ex, s :: rest =>
    if s.isInclude then
      (s.rules.flatMap fun r =>
        (globExpand fs r.glob).flatMap fun file => walkRoot ex fs file) ++
        selWithWindow fs ex rest
    else
      selWithWindow fs (ex.drop s.rules.length) rest

/-! ### Concrete inputs used by the claims -/

/-- A home directory containing exactly `a.txt` and `secret.txt`, both
regular files, in sorted readdir order. -/
def fsC2 : FTree := .file "a.txt" .reg (.file "secret.txt" .reg .nil)

/-- The literal rule text of the order-sensitivity test case, as
lines. -/
def linesC2 : List String :=
  ["[include]", "*.txt", "[exclude]", "secret.txt", "[include]", "secret.txt"]

/-- The stage sequence loaded from that rule text. -/
def stagesC2 : List BuildStage := loadStages "backup.list" linesC2 []

/-- A home directory containing exactly the regular file `a.txt`. -/
def fsC3 : FTree := .file "a.txt" .reg .nil

/-- A single include stage whose two rules both name `a.txt`, so the
file is reached by two separate walk invocations. -/
def stagesC3 : List BuildStage :=
  [⟨true, "backup.list", [⟨"a.txt", 2⟩, ⟨"a.txt", 3⟩]⟩]

/-- A stat result for a regular file with permission bits `0644`: the
raw mode carries the `S_IFREG` type bits on top. -/
def statC10 : StatEnv :=
  { path := "a.txt"
    lstat := some { mode := 0o100644, uid := 1000, gid := 1000, size := 5,
                    mtim := 1700000000, atim := 1700000000, ctim := 1700000000 }
    username := some "user"
    groupname := some "user"
    readlink := none }

/-- A stat result whose uid/gid have no name in the identity
database. -/
def statC5 : StatEnv :=
  { path := "a.txt"
    lstat := some { mode := 0o100644, uid := 4242, gid := 4242, size := 5,
                    mtim := 1700000000, atim := 1700000000, ctim := 1700000000 }
    username := none
    groupname := none
    readlink := none }

/-- A run in which the passphrase byte `65` was read and `rand.Read`
then failed. -/
def cryptoEnvRandFail : CryptoEnv :=
  { password := some [65], randOk := false, ivWriteOk := true }

/-- A run in which the passphrase byte `65` was read, the IV was
drawn, and the IV write to the destination failed. -/
def cryptoEnvWriteFail : CryptoEnv :=
  { password := some [65], randOk := true, ivWriteOk := false }

/-! ### Sanity checks of the embedded matcher against Go's documented
glob behaviour -/

/-- Reference cases of the embedded `filepath.Match` and `path.Base`:
star, question mark, bracket classes, negation, the separator bound on
`*`, the bad-pattern-as-false convention of `compileStages`, and base
names. -/
theorem goMatch_reference_cases :
    goMatch "*.txt" "a.txt" = true ∧
    goMatch "*.txt" "secret.txt" = true ∧
    goMatch "secret.txt" "secret.txt" = true ∧
    goMatch "secret.txt" "a.txt" = false ∧
    goMatch "*.txt" "dir/a.txt" = false ∧
    goMatch "a?c" "abc" = true ∧
    goMatch "[a-c]x" "bx" = true ∧
    goMatch "[a-c]x" "dx" = false ∧
    goMatch "[^a-c]x" "dx" = true ∧
    goMatch "[a-" "xa-" = false ∧
    goMatch "*" "abc" = true ∧
    goMatch "*" "a/b" = false ∧
    goPathBase "a.txt" = "a.txt" ∧
    goPathBase "d/sub/f.txt" = "f.txt" ∧
    goPathBase "" = "." := by decide

/-! ### Claim C2 (corrected)

The spec's literal test case expects the selection `{a.txt}`.  The
code disagrees: the exclusion window seen by an Include stage holds
only the patterns of Exclude stages *after* it, so the third stage
`[include] secret.txt` is not suppressed by the second stage's
`exclude secret.txt` (which only suppressed the first stage's
matches), and the selection is `[a.txt, secret.txt]`. -/

/-- Claim C2, as stated, is false: on a directory holding exactly
`a.txt` and `secret.txt`, the stages loaded from
`[include] *.txt / [exclude] secret.txt / [include] secret.txt` do not
compile to the selection `[a.txt]`. -/
theorem c2_counterexample :
    ¬ compileStages fsC2 stagesC2 = ["a.txt"] := by decide

/-- Claim C2 as amended: the same compilation yields
`[a.txt, secret.txt]` — the exclude stage suppresses `secret.txt` only
from the include stage that precedes it, while the include stage that
follows it selects `secret.txt` unhindered. -/
theorem c2_amended_selection :
    compileStages fsC2 stagesC2 = ["a.txt", "secret.txt"] := by decide

/-! ### Claim C3 (corrected)

The code performs no de-duplication across walk invocations: a path
reached by two include rules is selected twice.  Uniqueness holds only
within a single walk invocation (proved below, after the walk
lemmas). -/

/-- Claim C3, as stated, is false: with a single include stage whose
two rules both name `a.txt`, the path `a.txt` appears twice in the
selection output. -/
theorem c3_counterexample :
    compileStages fsC3 stagesC3 = ["a.txt", "a.txt"] ∧
    (compileStages fsC3 stagesC3).count "a.txt" = 2 ∧
    ¬ (compileStages fsC3 stagesC3).Nodup := by decide

/-! ### Claim C4 (confirmed): error policy of `archiveFile` -/

/-- Claim C4: an `os.Open` failure, an absent metadata capture, or a
`WriteHeader` failure all make `archiveFile` return nil (a skip, run
continues); a body-copy failure after the header was written (non-
symlink) returns an error; `runBuild`'s loop continues past nil
results and aborts with the first error. -/
theorem c4_archive_error_policy :
    (∀ env : FileEnv,
      env.openOk = false ∨ buildTarHeader env.stat = none ∨ env.writeHeaderOk = false →
        archiveFile env = none) ∧
    (∀ (env : FileEnv) (h : TarHeader),
      env.openOk = true → buildTarHeader env.stat = some h →
        env.writeHeaderOk = true → h.typeflag ≠ .symlink → env.copyOk = false →
          archiveFile env = some ("Error archiving " ++ env.stat.path)) ∧
    (∀ (env : FileEnv) (rest : List FileEnv),
      archiveFile env = none → archiveLoop (env :: rest) = archiveLoop rest) ∧
    (∀ (env : FileEnv) (rest : List FileEnv) (msg : String),
      archiveFile env = some msg → archiveLoop (env :: rest) = some msg) := by
  refine ⟨?_, ?_, ?_, ?_⟩
  · rintro env (hopen | hhdr | hwr)
    · simp [archiveFile, hopen]
    · cases hop : env.openOk <;> simp [archiveFile, hop, hhdr]
    · cases hop : env.openOk <;> cases hh : buildTarHeader env.stat <;>
        simp [archiveFile, hop, hh, hwr]
  · intro env h hopen hhdr hwr hsym hcopy
    simp [archiveFile, hopen, hhdr, hwr, hsym, hcopy]
  · intro env rest hnil
    simp [archiveLoop, hnil]
  · intro env rest msg herr
    simp [archiveLoop, herr]

/-- Witness for C4 at concrete environments: a failed open is skipped
and the loop continues; a failed body copy on a regular file aborts
the loop. -/
theorem c4_archive_error_policy_witness :
    archiveFile { openOk := false, stat := statC10, writeHeaderOk := true, copyOk := true } =
      none ∧
    archiveFile { openOk := true, stat := statC10, writeHeaderOk := true, copyOk := false } =
      some "Error archiving a.txt" ∧
    archiveLoop
      [{ openOk := false, stat := statC10, writeHeaderOk := true, copyOk := true },
       { openOk := true, stat := statC10, writeHeaderOk := true, copyOk := false }] =
      some "Error archiving a.txt" := by
  have h1 := c4_archive_error_policy.1
      { openOk := false, stat := statC10, writeHeaderOk := true, copyOk := true }
      (Or.inl rfl)
  have h2 := c4_archive_error_policy.2.1
      { openOk := true, stat := statC10, writeHeaderOk := true, copyOk := false }
      { name := "a.txt", mode := 0o100644, uid := 1000, gid := 1000, size := 5,
        uname := "user", gname := "user", mtime := 1700000000, typeflag := .reg,
        linkname := "", atime := 1700000000, ctime := 1700000000 }
      rfl (by decide) rfl (by decide) rfl
  have h3 := c4_archive_error_policy.2.2.1
      { openOk := false, stat := statC10, writeHeaderOk := true, copyOk := true }
      [{ openOk := true, stat := statC10, writeHeaderOk := true, copyOk := false }] h1
  exact ⟨h1, h2, by rw [h3]; simpa [archiveLoop] using h2⟩

/-! ### Claim C5 (confirmed): capture is absent iff lstat fails -/

/-- Claim C5: `buildTarHeader` returns nil exactly when `unix.Lstat`
fails, and a failed uid/gid-to-name lookup leaves the name field empty
while the numeric ids are still recorded. -/
theorem c5_capture_absent_iff_lstat :
    (∀ env : StatEnv, buildTarHeader env = none ↔ env.lstat = none) ∧
    (∀ (env : StatEnv) (info : UnixStat), env.lstat = some info →
      ∃ h, buildTarHeader env = some h ∧
        h.uid = info.uid ∧ h.gid = info.gid ∧
        (env.username = none → h.uname = "") ∧
        (env.groupname = none → h.gname = "")) := by
  constructor
  · intro env
    cases hs : env.lstat <;> simp [buildTarHeader, hs]
  · intro env info hs
    simp only [buildTarHeader, hs]
    refine ⟨_, rfl, rfl, rfl, fun hn => ?_, fun hn => ?_⟩ <;> simp [goCString, hn]

/-- Witness for C5 at a concrete stat whose uid and gid resolve to no
name. -/
theorem c5_capture_absent_iff_lstat_witness :
    (buildTarHeader { statC5 with lstat := none } = none ↔
      ({ statC5 with lstat := none } : StatEnv).lstat = none) ∧
    ∃ h, buildTarHeader statC5 = some h ∧
      h.uid = 4242 ∧ h.gid = 4242 ∧
      (statC5.username = none → h.uname = "") ∧
      (statC5.groupname = none → h.gname = "") := by
  refine ⟨c5_capture_absent_iff_lstat.1 _, ?_⟩
  have := c5_capture_absent_iff_lstat.2 statC5
      { mode := 0o100644, uid := 4242, gid := 4242, size := 5,
        mtim := 1700000000, atim := 1700000000, ctim := 1700000000 } rfl
  exact this

/-! ### Claim C7 (confirmed): exclude-only and empty stage lists -/

/-- The include branch of `compileStep` is the only one that touches
the selection component of the fold state. -/
theorem foldl_snd_exclude_only (fs : FTree) :
    ∀ (stages : List BuildStage) (ex l : List String),
      (∀ s ∈ stages, s.isInclude = false) →
      (stages.foldl (compileStep fs) (ex, l)).2 = l := by
  intro stages
  induction stages with
  | nil => intro ex l _; rfl
  | cons s rest ih =>
    intro ex l hall
    have hs : s.isInclude = false := hall s (List.mem_cons_self s rest)
    have hrest : ∀ t ∈ rest, t.isInclude = false :=
      fun t ht => hall t (List.mem_cons_of_mem s ht)
    simp only [List.foldl_cons, compileStep, hs, Bool.false_eq_true, if_false]
    exact ih _ _ hrest

/-- Claim C7: a stage sequence of only Exclude stages compiles to the
empty selection, and the empty stage sequence compiles to the empty
selection. -/
theorem c7_exclude_only_empty (fs : FTree) (stages : List BuildStage) :
    ((∀ s ∈ stages, s.isInclude = false) → compileStages fs stages = []) ∧
    compileStages fs [] = [] := by
  refine ⟨fun hall => ?_, rfl⟩
  unfold compileStages
  split
  · rfl
  · exact foldl_snd_exclude_only fs stages _ _ hall

/-- Witness for C7 on a concrete exclude-only stage list. -/
theorem c7_exclude_only_empty_witness :
    compileStages fsC2 [⟨false, "backup.list", [⟨"*.txt", 2⟩]⟩] = [] ∧
    compileStages fsC2 [] = [] := by
  have h := c7_exclude_only_empty fsC2 [⟨false, "backup.list", [⟨"*.txt", 2⟩]⟩]
  exact ⟨h.1 (by decide), h.2⟩

/-! ### Claim C8 (code bug): passphrase not zeroed on error paths

The spec requires the passphrase to be zeroed on every path, and the
`managedWriter` type exists for exactly that purpose, but
`setupCryptoStream` returns `(nil, err)` on the `rand.Read` and
IV-write failure paths before any `managedWriter` wraps the
passphrase, so nothing zeroes it there. -/

/-- Claim C8 fails on the code: after a `rand.Read` failure or an IV
write failure the padded passphrase is still intact (first byte 65),
while on the success path `managedWriter.Close` does zero it. -/
theorem c8_password_not_zeroed_on_failure :
    cryptoPasswordAfterRun cryptoEnvRandFail = some (pad32 [65]) ∧
    cryptoPasswordAfterRun cryptoEnvWriteFail = some (pad32 [65]) ∧
    ¬ (∀ b ∈ pad32 [65], b = 0) ∧
    cryptoPasswordAfterRun { password := some [65], randOk := true, ivWriteOk := true } =
      some (List.replicate 32 0) := by decide

/-! ### Claim C9 (confirmed): the emission pipeline has no encryption

`runBuild` wires `tar.NewWriter(gzip.NewWriter(output))`; the
`setupCryptoStream` call and the crypto-wrapped variants are commented
out, so the destination receives exactly the gzip encoding of the tar
stream, independently of any cipher parameters, and no IV is ever
written. -/

/-- Claim C9: the writer stack below the archiver is gzip directly
over the destination, contains no confidentiality layer, and the
destination bytes are exactly the gzip encoding of the tar stream, for
every choice of cipher function and IV. -/
theorem c9_no_crypto_in_pipeline :
    archiverSink = .gzipWriter .dest ∧
    usesCrypto archiverSink = false ∧
    (∀ (gz enc : List Nat → List Nat) (iv : List Nat) (archiveBytes : List Nat),
      bytesToDest gz enc iv archiverSink archiveBytes = gz archiveBytes) ∧
    (∀ (gz enc enc2 : List Nat → List Nat) (iv iv2 : List Nat) (archiveBytes : List Nat),
      bytesToDest gz enc iv archiverSink archiveBytes =
        bytesToDest gz enc2 iv2 archiverSink archiveBytes) := by
  exact ⟨rfl, rfl, fun _ _ _ _ => rfl, fun _ _ _ _ _ _ => rfl⟩

/-! ### Claim C1 (confirmed): the exclusion-window invariant -/

/-- The window before any stage is processed is the full initial
exclusion list. -/
theorem windowAt_zero (fs : FTree) (stages : List BuildStage) :
    windowAt fs stages 0 = initialExclusions stages := rfl

/-- One step of the window: an include stage leaves it unchanged, an
exclude stage drops its own rule count from the front. -/
theorem windowAt_succ (fs : FTree) (stages : List BuildStage) (i : Nat)
    (hi : i < stages.length) :
    windowAt fs stages (i + 1) =
      if stages[i].isInclude then windowAt fs stages i
      else (windowAt fs stages i).drop stages[i].rules.length := by
  unfold windowAt
  rw [List.take_succ, List.getElem?_eq_getElem hi]
  simp only [Option.toList_some, List.foldl_append, List.foldl_cons, List.foldl_nil]
  cases hinc : stages[i].isInclude <;> simp [compileStep, hinc]

/-- Unfolding of the initial window over a leading stage. -/
theorem initialExclusions_cons (s : BuildStage) (rest : List BuildStage) :
    initialExclusions (s :: rest) =
      (if s.isInclude then [] else s.rules.map (·.glob)) ++ initialExclusions rest := by
  simp [initialExclusions]

/-- The window when `compileStages` reaches stage `i` is exactly the
concatenation, in stage order, of the patterns of the exclude stages
from index `i` on. -/
theorem windowAt_eq_drop (fs : FTree) (stages : List BuildStage) :
    ∀ i, i ≤ stages.length →
      windowAt fs stages i = initialExclusions (stages.drop i) := by
  intro i
  induction i with
  | zero => intro _; rfl
  | succ i ih =>
    intro hle
    have hi : i < stages.length := Nat.lt_of_succ_le hle
    have hdrop : stages.drop i = stages[i] :: stages.drop (i + 1) :=
      List.drop_eq_getElem_cons hi
    have hwin : windowAt fs stages i = initialExclusions (stages.drop i) :=
      ih (Nat.le_of_lt hi)
    rw [windowAt_succ fs stages i hi, hwin, hdrop, initialExclusions_cons]
    cases hinc : stages[i].isInclude with
    | true => rw [if_pos rfl, if_pos rfl, List.nil_append]
    | false =>
      rw [if_neg (by decide), if_neg (by decide),
        show stages[i].rules.length = (stages[i].rules.map (·.glob)).length from
          (List.length_map _ _).symm,
        List.drop_left]

/-- Claim C1: the initial Exclusion Window is the stage-ordered
concatenation of all Exclude stages' patterns; when an Include stage
at index `i` is processed the window holds exactly the patterns of the
Exclude stages strictly after `i`; and an Exclude stage's processing
drops exactly its own rule count from the front of the window, those
entries being precisely its own patterns. -/
theorem c1_exclusion_window_invariant (fs : FTree) (stages : List BuildStage)
    (i : Nat) (hi : i < stages.length) :
    windowAt fs stages 0 = initialExclusions stages ∧
    (stages[i].isInclude = true →
      windowAt fs stages i = initialExclusions (stages.drop (i + 1))) ∧
    (stages[i].isInclude = false →
      windowAt fs stages i =
        stages[i].rules.map (fun r => r.glob) ++ initialExclusions (stages.drop (i + 1)) ∧
      windowAt fs stages (i + 1) = (windowAt fs stages i).drop stages[i].rules.length) := by
  have hdrop : stages.drop i = stages[i] :: stages.drop (i + 1) :=
    List.drop_eq_getElem_cons hi
  have hwin : windowAt fs stages i = initialExclusions (stages.drop i) :=
    windowAt_eq_drop fs stages i (Nat.le_of_lt hi)
  refine ⟨rfl, fun hinc => ?_, fun hinc => ⟨?_, ?_⟩⟩
  · rw [hwin, hdrop, initialExclusions_cons, if_pos hinc, List.nil_append]
  · rw [hwin, hdrop, initialExclusions_cons, if_neg (by simp [hinc])]
  · rw [windowAt_succ fs stages i hi, if_neg (by simp [hinc])]

/-- Witness for C1 on the loaded three-stage rule file: the window
starts as `[secret.txt]`, still holds `[secret.txt]` when the exclude
stage (index 1) is reached — that entry being the stage's own
pattern — and is empty afterwards. -/
theorem c1_exclusion_window_invariant_witness :
    windowAt fsC2 stagesC2 0 = ["secret.txt"] ∧
    windowAt fsC2 stagesC2 1 = ["secret.txt"] ∧
    windowAt fsC2 stagesC2 2 = [] := by
  obtain ⟨h0, -, hexc⟩ := c1_exclusion_window_invariant fsC2 stagesC2 1 (by decide)
  obtain ⟨ha, hb⟩ := hexc (by decide)
  refine ⟨by rw [h0]; decide, by rw [ha]; decide, ?_⟩
  rw [hb, ha]; decide

/-! ### Claim C6 (confirmed): exclusion matching, pruning, and
directory non-selection -/

/-- Claim C6: an entry is excluded iff some window pattern matches its
full walk path or its base name; an excluded directory is pruned (both
as a walk root and inside a walk), so none of its descendants reach
the output; and every selected path is the path of a non-directory
entry. -/
theorem c6_exclusion_and_pruning :
    (∀ (exclusions : List String) (w : String),
      isExcluded exclusions w = true ↔
        ∃ e ∈ exclusions, goMatch e w = true ∨ goMatch e (goPathBase w) = true) ∧
    (∀ (exclusions : List String) (w : String) (ch : FTree),
      isExcluded exclusions w = true → walkOne exclusions w (.edir ch) = []) ∧
    (∀ (exclusions : List String) (pre nm : String) (ch rest : FTree),
      isExcluded exclusions (joinPath pre nm) = true →
        walkForest exclusions pre (.dir nm ch rest) = walkForest exclusions pre rest) ∧
    (∀ (exclusions : List String) (pre : String) (f : FTree) (p : String),
      p ∈ walkForest exclusions pre f → p ∈ filePaths pre f) := by
  refine ⟨?_, ?_, ?_, ?_⟩
  · intro exclusions w
    simp [isExcluded, List.any_eq_true, Bool.or_eq_true]
  · intro exclusions w ch hexc
    simp [walkOne, hexc]
  · intro exclusions pre nm ch rest hexc
    simp [walkForest, hexc]
  · intro exclusions pre f
    induction f generalizing pre with
    | nil => intro p hp; simp [walkForest] at hp
    | file nm ft rest ih =>
      intro p hp
      rcases List.mem_append.mp hp with hl | hr
      · have : p = joinPath pre nm := by
          split at hl
          · simp at hl
          · split at hl
            · simpa using hl
            · simp at hl
        exact this ▸ List.mem_cons_self _ _
      · exact List.mem_cons_of_mem _ (ih pre p hr)
    | dir nm ch rest ihch ihrest =>
      intro p hp
      rcases List.mem_append.mp hp with hl | hr
      · refine List.mem_append_left _ ?_
        split at hl
        · simp at hl
        · exact ihch (joinPath pre nm) p hl
      · exact List.mem_append_right _ (ihrest pre p hr)

/-- Witness for C6 at concrete inputs: `secret.txt` is excluded by its
own pattern; an excluded directory walk root yields nothing; an
excluded directory inside a walk contributes nothing. -/
theorem c6_exclusion_and_pruning_witness :
    isExcluded ["secret.txt"] "secret.txt" = true ∧
    walkOne ["secret.txt"] "secret.txt" (.edir (.file "x.pdf" .reg .nil)) = [] ∧
    walkForest ["docs"] "" (.dir "docs" (.file "x.pdf" .reg .nil) .nil) = [] := by
  have h := c6_exclusion_and_pruning
  refine ⟨?_, h.2.1 _ _ _ (by decide), ?_⟩
  · exact (h.1 ["secret.txt"] "secret.txt").mpr
      ⟨"secret.txt", by simp, Or.inl (by decide)⟩
  · rw [h.2.2.1 ["docs"] "" "docs" (.file "x.pdf" .reg .nil) .nil (by decide)]
    rfl

/-! ### Walk-path structure and per-walk uniqueness (for claim C3) -/

/-- A valid name has characters. -/
theorem goodName_ne_nil {nm : String} (h : goodName nm = true) : nm.data ≠ [] := by
  simp only [goodName, Bool.and_eq_true, Bool.not_eq_true'] at h
  intro hd
  rw [hd] at h
  simp at h

/-- A valid name has no separator. -/
theorem goodName_no_slash {nm : String} (h : goodName nm = true) : '/' ∉ nm.data := by
  simp only [goodName, Bool.and_eq_true, Bool.not_eq_true'] at h
  intro hm
  have h3 : nm.data.contains '/' = true := List.elem_iff.mpr hm
  rw [h.2] at h3
  exact Bool.false_ne_true h3

/-- Reading a failed containment check as non-membership. -/
theorem not_mem_of_contains_eq_false {l : List String} {a : String}
    (h : l.contains a = false) : a ∉ l := by
  intro hm
  have h3 : l.contains a = true := List.elem_iff.mpr hm
  rw [h] at h3
  exact Bool.false_ne_true h3

/-- Components of well-formedness at a leaf entry. -/
theorem wf_file_elim {nm : String} {ft : FType} {rest : FTree}
    (h : wfForest (.file nm ft rest) = true) :
    goodName nm = true ∧ (namesOf rest).contains nm = false ∧ wfForest rest = true := by
  simp only [wfForest, Bool.and_eq_true, Bool.not_eq_true'] at h
  exact ⟨h.1.1, h.1.2, h.2⟩

/-- Components of well-formedness at a directory entry. -/
theorem wf_dir_elim {nm : String} {ch rest : FTree}
    (h : wfForest (.dir nm ch rest) = true) :
    goodName nm = true ∧ (namesOf rest).contains nm = false ∧
      wfForest ch = true ∧ wfForest rest = true := by
  simp only [wfForest, Bool.and_eq_true, Bool.not_eq_true'] at h
  exact ⟨h.1.1.1, h.1.1.2, h.1.2, h.2⟩

/-- Every name of a well-formed forest is valid. -/
theorem wf_names_good : ∀ (f : FTree), wfForest f = true →
    ∀ nm ∈ namesOf f, goodName nm = true := by
  intro f
  induction f with
  | nil => intro _ nm hm; simp [namesOf] at hm
  | file nm0 ft rest ih =>
    intro hwf nm hm
    obtain ⟨hg, -, hwr⟩ := wf_file_elim hwf
    simp only [namesOf] at hm
    rcases List.mem_cons.mp hm with rfl | hm'
    · exact hg
    · exact ih hwr nm hm'
  | dir nm0 ch rest ihch ihrest =>
    intro hwf nm hm
    obtain ⟨hg, -, -, hwr⟩ := wf_dir_elim hwf
    simp only [namesOf] at hm
    rcases List.mem_cons.mp hm with rfl | hm'
    · exact hg
    · exact ihrest hwr nm hm'

/-- A string is empty exactly when its character list is. -/
theorem data_empty_iff {s : String} : s.data = [] ↔ s = "" := by
  constructor
  · intro h
    exact String.ext (h.trans rfl)
  · rintro rfl
    rfl

/-- Character-list form of `joinPath`. -/
theorem joinPath_data (pre nm : String) :
    (joinPath pre nm).data =
      if pre.data = [] then nm.data else pre.data ++ '/' :: nm.data := by
  by_cases hp : pre = ""
  · subst hp
    rw [joinPath, if_pos rfl, if_pos rfl]
  · have hd : ¬ pre.data = [] := fun h => hp (data_empty_iff.mp h)
    rw [joinPath, if_neg hp, if_neg hd, String.data_append, String.data_append,
      List.append_assoc]
    rfl

/-- The path of a validly named entry is nonempty. -/
theorem joinPath_data_ne_nil {pre nm : String} (h : goodName nm = true) :
    (joinPath pre nm).data ≠ [] := by
  rw [joinPath_data]
  split
  · exact goodName_ne_nil h
  · simp

/-- Taking up to the first separator of a segment-plus-tail recovers
the segment. -/
theorem takeWhile_notSlash_append (n t : List Char) (hn : '/' ∉ n) (ht : TailOk t) :
    (n ++ t).takeWhile notSlash = n := by
  induction n with
  | nil =>
    rcases ht with rfl | ⟨u, rfl⟩
    · rfl
    · simp [notSlash]
  | cons c cs ih =>
    have hc : (c == '/') = false := by
      simp only [beq_eq_false_iff_ne, ne_eq]
      intro h
      exact hn (by rw [h]; exact List.mem_cons_self _ _)
    simp only [List.cons_append, List.takeWhile_cons, notSlash, hc, Bool.not_false,
      if_true]
    rw [ih (fun h => hn (List.mem_cons_of_mem _ h))]

/-- Two separator-free segments with valid tails agreeing as appended
lists are equal. -/
theorem seg_eq_of_append_eq {n1 n2 t1 t2 : List Char} (h1 : '/' ∉ n1) (h2 : '/' ∉ n2)
    (ht1 : TailOk t1) (ht2 : TailOk t2) (heq : n1 ++ t1 = n2 ++ t2) : n1 = n2 := by
  have e1 := takeWhile_notSlash_append n1 t1 h1 ht1
  have e2 := takeWhile_notSlash_append n2 t2 h2 ht2
  rw [heq] at e1
  exact e1.symm.trans e2

/-- Two walk paths equal as strings descend through the same child
name of the shared parent. -/
theorem joinPath_seg_inj {pre n1 n2 : String} {t1 t2 : List Char}
    (h1 : goodName n1 = true) (h2 : goodName n2 = true)
    (ht1 : TailOk t1) (ht2 : TailOk t2)
    (heq : (joinPath pre n1).data ++ t1 = (joinPath pre n2).data ++ t2) : n1 = n2 := by
  have g1 := goodName_no_slash h1
  have g2 := goodName_no_slash h2
  rw [joinPath_data, joinPath_data] at heq
  by_cases hp : pre.data = []
  · rw [if_pos hp, if_pos hp] at heq
    exact String.ext (seg_eq_of_append_eq g1 g2 ht1 ht2 heq)
  · rw [if_neg hp, if_neg hp] at heq
    simp only [List.append_assoc, List.cons_append] at heq
    have h3 := List.append_cancel_left heq
    simp only [List.cons.injEq, true_and] at h3
    exact String.ext (seg_eq_of_append_eq g1 g2 ht1 ht2 h3)

/-- Every path a walk emits descends through one of the forest's entry
names, continuing with nothing or a separator-led remainder. -/
theorem walkForest_shape (ex : List String) :
    ∀ (f : FTree) (pre p : String), wfForest f = true → p ∈ walkForest ex pre f →
      ∃ nm t, nm ∈ namesOf f ∧ TailOk t ∧ p.data = (joinPath pre nm).data ++ t := by
  intro f
  induction f with
  | nil => intro pre p _ hp; simp [walkForest] at hp
  | file nm ft rest ih =>
    intro pre p hwf hp
    obtain ⟨hgood, -, hwfrest⟩ := wf_file_elim hwf
    simp only [walkForest] at hp
    rcases List.mem_append.mp hp with hl | hr
    · have hpw : p = joinPath pre nm := by
        split at hl
        · simp at hl
        · split at hl
          · simpa using hl
          · simp at hl
      exact ⟨nm, [], by simp [namesOf], Or.inl rfl, by rw [hpw, List.append_nil]⟩
    · obtain ⟨nm', t, hmem, ht, hdata⟩ := ih pre p hwfrest hr
      exact ⟨nm', t, by simp [namesOf, hmem], ht, hdata⟩
  | dir nm ch rest ihch ihrest =>
    intro pre p hwf hp
    obtain ⟨hgood, -, hwfch, hwfrest⟩ := wf_dir_elim hwf
    simp only [walkForest] at hp
    rcases List.mem_append.mp hp with hl | hr
    · have hl' : p ∈ walkForest ex (joinPath pre nm) ch := by
        split at hl
        · simp at hl
        · exact hl
      obtain ⟨nmc, t, hmem, ht, hdata⟩ := ihch (joinPath pre nm) p hwfch hl'
      refine ⟨nm, '/' :: (nmc.data ++ t), by simp [namesOf], Or.inr ⟨_, rfl⟩, ?_⟩
      rw [hdata, joinPath_data (joinPath pre nm) nmc,
        if_neg (joinPath_data_ne_nil hgood), List.append_assoc]
      rfl
    · obtain ⟨nm', t, hmem, ht, hdata⟩ := ihrest pre p hwfrest hr
      exact ⟨nm', t, by simp [namesOf, hmem], ht, hdata⟩

/-- Every path emitted below a directory extends the directory's path
through a separator. -/
theorem walkForest_under_shape (ex : List String) (ch : FTree) (w p : String)
    (hw : w.data ≠ []) (hwf : wfForest ch = true) (hp : p ∈ walkForest ex w ch) :
    ∃ u, p.data = w.data ++ '/' :: u := by
  obtain ⟨nmc, t, -, -, hdata⟩ := walkForest_shape ex ch w p hwf hp
  rw [joinPath_data, if_neg hw, List.append_assoc] at hdata
  exact ⟨nmc.data ++ t, hdata⟩

/-- One walk of a well-formed forest never emits the same path
twice. -/
theorem walkForest_nodup (ex : List String) :
    ∀ (f : FTree) (pre : String), wfForest f = true → (walkForest ex pre f).Nodup := by
  intro f
  induction f with
  | nil => intro pre _; simp [walkForest]
  | file nm ft rest ih =>
    intro pre hwf
    obtain ⟨hgood, hnotin, hwfrest⟩ := wf_file_elim hwf
    simp only [walkForest]
    rw [List.nodup_append]
    refine ⟨?_, ih pre hwfrest, ?_⟩
    · split
      · exact List.nodup_nil
      · split
        · simp
        · exact List.nodup_nil
    · intro a ha hmem
      have hpw : a = joinPath pre nm := by
        split at ha
        · simp at ha
        · split at ha
          · simpa using ha
          · simp at ha
      obtain ⟨nm', t, hmem', ht, hdata⟩ := walkForest_shape ex rest pre a hwfrest hmem
      have heq : (joinPath pre nm).data ++ ([] : List Char) =
          (joinPath pre nm').data ++ t := by
        rw [List.append_nil, ← hpw, hdata]
      have : nm = nm' :=
        joinPath_seg_inj hgood (wf_names_good rest hwfrest nm' hmem')
          (Or.inl rfl) ht heq
      exact not_mem_of_contains_eq_false hnotin (this ▸ hmem')
  | dir nm ch rest ihch ihrest =>
    intro pre hwf
    obtain ⟨hgood, hnotin, hwfch, hwfrest⟩ := wf_dir_elim hwf
    simp only [walkForest]
    rw [List.nodup_append]
    refine ⟨?_, ihrest pre hwfrest, ?_⟩
    · split
      · exact List.nodup_nil
      · exact ihch (joinPath pre nm) hwfch
    · intro a ha hmem
      have ha' : a ∈ walkForest ex (joinPath pre nm) ch := by
        split at ha
        · simp at ha
        · exact ha
      obtain ⟨u, hu⟩ := walkForest_under_shape ex ch (joinPath pre nm) a
        (joinPath_data_ne_nil hgood) hwfch ha'
      obtain ⟨nm', t, hmem', ht, hdata⟩ := walkForest_shape ex rest pre a hwfrest hmem
      have heq : (joinPath pre nm).data ++ '/' :: u = (joinPath pre nm').data ++ t := by
        rw [← hu]
        exact hdata
      have : nm = nm' :=
        joinPath_seg_inj hgood (wf_names_good rest hwfrest nm' hmem')
          (Or.inr ⟨u, rfl⟩) ht heq
      exact not_mem_of_contains_eq_false hnotin (this ▸ hmem')

/-- A directory entry found in a well-formed forest has well-formed
children. -/
theorem wf_findEntry_dir : ∀ (fs : FTree) (root : String) (ch : FTree),
    wfForest fs = true → findEntry fs root = some (.edir ch) → wfForest ch = true := by
  intro fs
  induction fs with
  | nil => intro root ch _ hf; simp [findEntry] at hf
  | file nm ft rest ih =>
    intro root ch hwf hf
    obtain ⟨-, -, hwfrest⟩ := wf_file_elim hwf
    simp only [findEntry] at hf
    split at hf
    · simp at hf
    · exact ih root ch hwfrest hf
  | dir nm ch0 rest ihch ihrest =>
    intro root ch hwf hf
    obtain ⟨-, -, hwfch, hwfrest⟩ := wf_dir_elim hwf
    simp only [findEntry] at hf
    split at hf
    · obtain rfl : ch0 = ch := by
        simpa using hf
      exact hwfch
    · exact ihrest root ch hwfrest hf

/-- One `filepath.Walk` invocation of `compileStages` on a well-formed
home directory emits each path at most once. -/
theorem walkRoot_nodup (fs : FTree) (hwf : wfForest fs = true)
    (ex : List String) (root : String) : (walkRoot ex fs root).Nodup := by
  unfold walkRoot
  cases hf : findEntry fs root with
  | none => exact List.nodup_nil
  | some e =>
    cases e with
    | efile ft =>
      simp only [walkOne]
      split
      · exact List.nodup_nil
      · split
        · simp
        · exact List.nodup_nil
    | edir ch =>
      simp only [walkOne]
      split
      · exact List.nodup_nil
      · exact walkForest_nodup ex ch root (wf_findEntry_dir fs root ch hwf hf)

/-- The fold inside `compileStages` accumulates exactly the
window-threaded selection. -/
theorem foldl_snd_eq_selWithWindow (fs : FTree) :
    ∀ (stages : List BuildStage) (ex l : List String),
      (stages.foldl (compileStep fs) (ex, l)).2 = l ++ selWithWindow fs ex stages := by
  intro stages
  induction stages with
  | nil => intro ex l; simp [selWithWindow]
  | cons s rest ih =>
    intro ex l
    cases hs : s.isInclude with
    | true =>
      simp only [List.foldl_cons, compileStep, hs, if_true, selWithWindow]
      rw [ih ex _, List.append_assoc]
    | false =>
      simp only [List.foldl_cons, compileStep, hs, Bool.false_eq_true, if_false,
        selWithWindow]
      exact ih _ l

/-- The compiled selection is the window-threaded selection, i.e. it
is laid out by stage order, rule order, glob match order, and walk
pre-order. -/
theorem compileStages_eq_selWithWindow (fs : FTree) (stages : List BuildStage) :
    compileStages fs stages = selWithWindow fs (initialExclusions stages) stages := by
  unfold compileStages
  split
  · rename_i hempty
    rw [List.isEmpty_iff.mp hempty]
    rfl
  · rw [foldl_snd_eq_selWithWindow fs stages (initialExclusions stages) []]
    rfl

/-! ### Claim C3 (corrected), amended half

The amended claim: each distinct path appears at most once per walk
invocation (duplicates across distinct rules/glob matches/stages
remain, as the counterexample pins), and the selection is ordered by
stage, rule, glob match, then walk pre-order. -/

/-- Amended claim C3: on a well-formed home directory, the selection
is the stage/rule/glob-match/walk-pre-ordered concatenation of the
individual walk outputs, and each single walk invocation emits every
path at most once. -/
theorem c3_amended_per_walk_uniqueness (fs : FTree) (stages : List BuildStage)
    (hwf : wfForest fs = true) :
    compileStages fs stages = selWithWindow fs (initialExclusions stages) stages ∧
    ∀ (exclusions : List String) (root : String), (walkRoot exclusions fs root).Nodup :=
  ⟨compileStages_eq_selWithWindow fs stages,
   fun exclusions root => walkRoot_nodup fs hwf exclusions root⟩

/-- Witness for the amended claim C3 on the duplicate-producing
concrete input: even there, the single walk invocation is
duplicate-free, and the duplication comes from the two rules. -/
theorem c3_amended_per_walk_uniqueness_witness :
    compileStages fsC3 stagesC3 =
      selWithWindow fsC3 (initialExclusions stagesC3) stagesC3 ∧
    (walkRoot [] fsC3 "a.txt").Nodup := by
  have h := c3_amended_per_walk_uniqueness fsC3 stagesC3 (by decide)
  exact ⟨h.1, h.2 [] "a.txt"⟩

/-! ### Claim C10 (confirmed): the header mode is the raw stat mode -/

/-- Claim C10: for a successful capture the header's mode field is the
full raw `st_mode` (type bits included), not the permission bits
alone. -/
theorem c10_mode_is_raw_stat_mode (env : StatEnv) (info : UnixStat)
    (hs : env.lstat = some info) :
    ∃ h, buildTarHeader env = some h ∧ h.mode = (info.mode : Int) := by
  simp only [buildTarHeader, hs]
  exact ⟨_, rfl, rfl⟩

/-- Witness for C10: a regular file with permission bits `0644` gets
mode `0o100644`, which differs from the bare permission bits. -/
theorem c10_mode_is_raw_stat_mode_witness :
    (∃ h, buildTarHeader statC10 = some h ∧ h.mode = (0o100644 : Int)) ∧
    (0o100644 : Int) ≠ 0o644 := by
  refine ⟨?_, by decide⟩
  exact c10_mode_is_raw_stat_mode statC10
    { mode := 0o100644, uid := 1000, gid := 1000, size := 5,
      mtim := 1700000000, atim := 1700000000, ctim := 1700000000 } rfl

end Backup
